import Mathlib

/-!
Shallow embedding of the Vision Transformer training/evaluation program
(`vit.test_2.py`) and proofs of the specification claims about it.

Modelling conventions:
* Tensors are total functions out of `Fin` index types, with values in `ℚ`.
  `ℚ` idealizes the floating-point scalars of the program; transcendental
  operations that PyTorch evaluates in floating point (`exp` in softmax,
  `1/sqrt` in layer normalization, the GELU activation) are abstracted as
  function-valued parameters of the corresponding module, so every
  definition stays computable and the algebraic structure of the code is
  kept intact.
* Each PyTorch module used by the program is translated into a parameter
  record plus a forward function that mirrors the source of the module.
* Dropout is modelled exactly as `torch.nn.functional.dropout`: in training
  mode each element is either zeroed or rescaled by `1/(1-p)` according to
  a Boolean mask (the Bernoulli draw of that forward call); in evaluation
  mode it is the identity.
-/

namespace ViTProgram

/-! ### Layer normalization (`torch.nn.LayerNorm`, default `eps = 1e-5`) -/

/-- Epsilon of `nn.LayerNorm`, `1e-5`, as used by the program. -/
def lnEps : ℚ := 1 / 100000

/-- Parameters of a `nn.LayerNorm(normalized_shape=D)` module.  `rsqrt`
abstracts the floating-point map `v ↦ 1 / sqrt v` applied to the biased
variance plus `lnEps`. -/
structure LNParams (D : ℕ) where
  gamma : Fin D → ℚ
  beta : Fin D → ℚ
  rsqrt : ℚ → ℚ

/-- Mean of a feature vector, as layer normalization computes it. -/
def featMean {D : ℕ} (x : Fin D → ℚ) : ℚ := (∑ d, x d) / D

/-- Biased variance of a feature vector, as layer normalization computes it. -/
def featVar {D : ℕ} (x : Fin D → ℚ) : ℚ := (∑ d, (x d - featMean x) ^ 2) / D

/-- Forward of `nn.LayerNorm` on one feature vector:
`gamma * (x - mean) / sqrt(var + eps) + beta`. -/
def layerNorm1 {D : ℕ} (p : LNParams D) (x : Fin D → ℚ) : Fin D → ℚ :=
  fun d => p.gamma d * ((x d - featMean x) * p.rsqrt (featVar x + lnEps)) + p.beta d

/-- Layer normalization applied position-wise to a sequence of feature
vectors (normalization is over the last axis only). -/
def layerNormSeq {S D : ℕ} (p : LNParams D) (x : Fin S → Fin D → ℚ) :
    Fin S → Fin D → ℚ :=
  fun i => layerNorm1 p (x i)

/-! ### Patch embedding

`PatchEmbedding.main` is `nn.Conv2d(num_channels, embed_dim, kernel_size=
patch_size, stride=patch_size, padding=0)` followed by
`nn.Flatten(start_dim=2, end_dim=3)`, and `PatchEmbedding.forward` then
applies `.permute(0, 2, 1)`.  The image height and width are expressed as
`Hp * p` and `Wp * p` (the program only ever runs the convolution on
inputs whose spatial dimensions are divisible by the patch size). -/

/-- Parameters of the patch convolution `nn.Conv2d` with
`kernel_size = stride = p`, `padding = 0`. -/
structure ConvParams (C p D : ℕ) where
  w : Fin D → Fin C → Fin p → Fin p → ℚ
  b : Fin D → ℚ

theorem patchIndexBound {Hp p : ℕ} (i : Fin Hp) (a : Fin p) :
    (i : ℕ) * p + a < Hp * p := by
  calc (i : ℕ) * p + a < (i : ℕ) * p + p := by omega
  _ = ((i : ℕ) + 1) * p := by ring
  _ ≤ Hp * p := Nat.mul_le_mul_right p i.isLt

/-- Output of the strided convolution at output channel `d` and spatial
patch position `(i, j)`: the kernel is applied to the `p × p` block whose
top-left corner is `(i*p, j*p)` — kernel size equals stride, so blocks do
not overlap and no padding is involved. -/
def conv2dPatch {C p D Hp Wp : ℕ} (P : ConvParams C p D)
    (img : Fin C → Fin (Hp * p) → Fin (Wp * p) → ℚ) :
    Fin D → Fin Hp → Fin Wp → ℚ :=
  fun d i j =>
    (∑ c, ∑ a, ∑ e, P.w d c a e *
      img c ⟨(i : ℕ) * p + a, patchIndexBound i a⟩
            ⟨(j : ℕ) * p + e, patchIndexBound j e⟩) + P.b d

theorem flattenDivBound {Hp Wp : ℕ} (n : Fin (Hp * Wp)) : (n : ℕ) / Wp < Hp := by
  have h : (n : ℕ) < Hp * Wp := n.isLt
  have hWp : 0 < Wp := by
    rcases Nat.eq_zero_or_pos Wp with h0 | h0
    · subst h0; omega
    · exact h0
  exact Nat.div_lt_of_lt_mul (Nat.mul_comm Hp Wp ▸ h)

theorem flattenModBound {Hp Wp : ℕ} (n : Fin (Hp * Wp)) : (n : ℕ) % Wp < Wp := by
  have h : (n : ℕ) < Hp * Wp := n.isLt
  have hWp : 0 < Wp := by
    rcases Nat.eq_zero_or_pos Wp with h0 | h0
    · subst h0; omega
    · exact h0
  exact Nat.mod_lt _ hWp

/-- Forward of `nn.Flatten(start_dim=2, end_dim=3)` on the per-sample convolution
output: the two spatial axes collapse row-major into one axis of length
`Hp * Wp`. -/
def flatten23 {D Hp Wp : ℕ} (t : Fin D → Fin Hp → Fin Wp → ℚ) :
    Fin D → Fin (Hp * Wp) → ℚ :=
  fun d n => t d ⟨(n : ℕ) / Wp, flattenDivBound n⟩ ⟨(n : ℕ) % Wp, flattenModBound n⟩

/-- Per-sample forward of `PatchEmbedding`: convolution, flatten, then
`.permute(0, 2, 1)` (per sample, a transpose of the channel and sequence
axes), producing the `[N, D]` token-by-feature layout. -/
def patchEmbedding {C p D Hp Wp : ℕ} (P : ConvParams C p D)
    (img : Fin C → Fin (Hp * p) → Fin (Wp * p) → ℚ) :
    Fin (Hp * Wp) → Fin D → ℚ :=
  fun n d => flatten23 (conv2dPatch P img) d n

/-- Batched forward of `PatchEmbedding` on a `[B, C, H, W]` tensor. -/
def patchEmbeddingBatch {B C p D Hp Wp : ℕ} (P : ConvParams C p D)
    (x : Fin B → Fin C → Fin (Hp * p) → Fin (Wp * p) → ℚ) :
    Fin B → Fin (Hp * Wp) → Fin D → ℚ :=
  fun b => patchEmbedding P (x b)

/-! ### Linear layers and dropout -/

/-- Forward of `nn.Linear` on one vector: `w @ x + b` with `w : [Out, In]`. -/
def linearMap {In Out : ℕ} (w : Fin Out → Fin In → ℚ) (b : Fin Out → ℚ)
    (x : Fin In → ℚ) : Fin Out → ℚ :=
  fun o => (∑ i, w o i * x i) + b o

/-- Forward of `torch.nn.functional.dropout` on a `[S, D]` tensor.  In
training mode every element is zeroed or kept-and-rescaled by `1/(1-rate)`
according to the Boolean mask drawn for this call; in evaluation mode the
input passes through unchanged. -/
def dropoutSeq {S D : ℕ} (training : Bool) (rate : ℚ)
    (mask : Fin S → Fin D → Bool) (x : Fin S → Fin D → ℚ) :
    Fin S → Fin D → ℚ :=
  fun i d =>
    if training then (if mask i d then x i d / (1 - rate) else 0) else x i d

/-! ### Multi-head attention (`torch.nn.MultiheadAttention`)

The embedding dimension is expressed as `H * dh` (`num_heads` times the
head dimension), the factorization the constructor of the module asserts to
exist.  `q = k = v` is the only calling pattern the program uses.  Feature
index `h*dh + u` belongs to head `h` at inner coordinate `u`, matching the
`[S, D] → [S, H, dh]` reshape inside the module. -/

/-- Parameters of `nn.MultiheadAttention(embed_dim=H*dh, num_heads=H)`:
the three blocks of `in_proj_weight`/`in_proj_bias`, the output
projection, the score scale (standing for `1/sqrt dh`), and `e` standing
for the floating-point `exp` inside softmax. -/
structure MHAParams (H dh : ℕ) where
  wq : Fin (H * dh) → Fin (H * dh) → ℚ
  wk : Fin (H * dh) → Fin (H * dh) → ℚ
  wv : Fin (H * dh) → Fin (H * dh) → ℚ
  bq : Fin (H * dh) → ℚ
  bk : Fin (H * dh) → ℚ
  bv : Fin (H * dh) → ℚ
  wo : Fin (H * dh) → Fin (H * dh) → ℚ
  bo : Fin (H * dh) → ℚ
  scale : ℚ
  e : ℚ → ℚ

/-- Feature index of head `h`, inner coordinate `u`. -/
def featIdx {H dh : ℕ} (h : Fin H) (u : Fin dh) : Fin (H * dh) :=
  ⟨(h : ℕ) * dh + u, patchIndexBound h u⟩

/-- Raw attention scores `scale * ⟨q_i, k_j⟩` of head `h`. -/
def headScores {S H dh : ℕ} (P : MHAParams H dh) (x : Fin S → Fin (H * dh) → ℚ)
    (h : Fin H) (i j : Fin S) : ℚ :=
  P.scale * ∑ u, linearMap P.wq P.bq (x i) (featIdx h u) *
    linearMap P.wk P.bk (x j) (featIdx h u)

/-- Softmax of one score row, with `e` standing for `exp`. -/
def softmaxRow {S : ℕ} (e : ℚ → ℚ) (row : Fin S → ℚ) : Fin S → ℚ :=
  fun j => e (row j) / ∑ j2, e (row j2)

/-- Softmax-normalized attention weights of every head. -/
def attnWeights {S H dh : ℕ} (P : MHAParams H dh)
    (x : Fin S → Fin (H * dh) → ℚ) (h : Fin H) (i : Fin S) : Fin S → ℚ :=
  softmaxRow P.e (headScores P x h i)

/-- Given (possibly dropout-perturbed) attention weights, the attended
values of each head, their concatenation along the feature axis, and the
output projection — the tail of `F.multi_head_attention_forward`. -/
def mhaFromWeights {S H dh : ℕ} (P : MHAParams H dh)
    (wts : Fin H → Fin S → Fin S → ℚ) (x : Fin S → Fin (H * dh) → ℚ) :
    Fin S → Fin (H * dh) → ℚ :=
  fun i => linearMap P.wo P.bo (fun d =>
    ∑ j, wts ⟨(d : ℕ) / dh, flattenDivBound d⟩ i j *
      linearMap P.wv P.bv (x j)
        (featIdx ⟨(d : ℕ) / dh, flattenDivBound d⟩ ⟨(d : ℕ) % dh, flattenModBound d⟩))

/-- Forward of `nn.MultiheadAttention` with `query = key = value = x` and
no attention-weight dropout (the default `dropout=0.0` of the module, under
which the internal `F.dropout` keeps every element and rescales by 1). -/
def mhaCore {S H dh : ℕ} (P : MHAParams H dh) (x : Fin S → Fin (H * dh) → ℚ) :
    Fin S → Fin (H * dh) → ℚ :=
  mhaFromWeights P (attnWeights P x) x

/-- Dropout applied to the per-head attention weight tensor (the
`dropout=0.1` the encoder layer passes to its `self_attn`). -/
def dropoutAttnW {S H : ℕ} (training : Bool) (rate : ℚ)
    (mask : Fin H → Fin S → Fin S → Bool) (wts : Fin H → Fin S → Fin S → ℚ) :
    Fin H → Fin S → Fin S → ℚ :=
  fun h i j =>
    if training then (if mask h i j then wts h i j / (1 - rate) else 0) else wts h i j

/-- Forward of `nn.MultiheadAttention` with attention-weight dropout, as
instantiated inside `nn.TransformerEncoderLayer`. -/
def mhaDropped {S H dh : ℕ} (P : MHAParams H dh) (training : Bool) (rate : ℚ)
    (mask : Fin H → Fin S → Fin S → Bool) (x : Fin S → Fin (H * dh) → ℚ) :
    Fin S → Fin (H * dh) → ℚ :=
  mhaFromWeights P (dropoutAttnW training rate mask (attnWeights P x)) x

/-- Forward of the `MultiheadSelfAttention` module of the program: layer
normalization followed by `nn.MultiheadAttention(q=x, k=x, v=x)`; only the
attended values are returned, never the weights. -/
def msaBlock {S H dh : ℕ} (ln : LNParams (H * dh)) (P : MHAParams H dh)
    (x : Fin S → Fin (H * dh) → ℚ) : Fin S → Fin (H * dh) → ℚ :=
  mhaCore P (layerNormSeq ln x)

/-! ### Transformer encoder
(`torch.nn.TransformerEncoderLayer` with `activation="gelu"`,
`layer_norm_eps=1e-5`, `batch_first=True`, `norm_first=True`, wrapped by
`torch.nn.TransformerEncoder(num_layers=num_layers)`, which deep-copies
the layer `num_layers` times, so each copy carries its own parameters). -/

/-- Parameters of one `nn.TransformerEncoderLayer`: the two layer norms,
the self-attention module, the two feed-forward linears `D → F → D`, the
activation `act` (standing for GELU), and the shared dropout rate. -/
structure ELParams (H dh F : ℕ) where
  norm1 : LNParams (H * dh)
  norm2 : LNParams (H * dh)
  attn : MHAParams H dh
  w1 : Fin F → Fin (H * dh) → ℚ
  b1 : Fin F → ℚ
  w2 : Fin (H * dh) → Fin F → ℚ
  b2 : Fin (H * dh) → ℚ
  act : ℚ → ℚ
  rate : ℚ

/-- Dropout masks one encoder layer draws during one training forward:
for the attention-weight dropout inside `self_attn`, for `dropout1` after
the attention block, for the inner feed-forward dropout, and for
`dropout2` after the feed-forward block. -/
structure ELMasks (H dh F S : ℕ) where
  attnW : Fin H → Fin S → Fin S → Bool
  m1 : Fin S → Fin (H * dh) → Bool
  mi : Fin S → Fin F → Bool
  m2 : Fin S → Fin (H * dh) → Bool

/-- Forward of the `_sa_block` of the layer: self-attention then `dropout1`. -/
def saBlock {S H dh F : ℕ} (training : Bool) (P : ELParams H dh F)
    (mk : ELMasks H dh F S) (x : Fin S → Fin (H * dh) → ℚ) :
    Fin S → Fin (H * dh) → ℚ :=
  dropoutSeq training P.rate mk.m1 (mhaDropped P.attn training P.rate mk.attnW x)

/-- Forward of the `_ff_block` of the layer:
`linear2(dropout(activation(linear1(x))))` then `dropout2`. -/
def ffBlock {S H dh F : ℕ} (training : Bool) (P : ELParams H dh F)
    (mk : ELMasks H dh F S) (x : Fin S → Fin (H * dh) → ℚ) :
    Fin S → Fin (H * dh) → ℚ :=
  dropoutSeq training P.rate mk.m2 (fun i =>
    linearMap P.w2 P.b2
      (dropoutSeq training P.rate mk.mi
        (fun i2 f => P.act (linearMap P.w1 P.b1 (x i2) f)) i))

/-- Forward of `nn.TransformerEncoderLayer` with `norm_first=True`:
`x = x + sa_block(norm1(x))` then `x = x + ff_block(norm2(x))`. -/
def encoderLayerFwd {S H dh F : ℕ} (training : Bool) (P : ELParams H dh F)
    (mk : ELMasks H dh F S) (x : Fin S → Fin (H * dh) → ℚ) :
    Fin S → Fin (H * dh) → ℚ :=
  let x1 := fun i d => x i d + saBlock training P mk (layerNormSeq P.norm1 x) i d
  fun i d => x1 i d + ffBlock training P mk (layerNormSeq P.norm2 x1) i d

/-- Forward of `nn.TransformerEncoder` (`norm=None`): the loop
`for mod in self.layers: output = mod(output)` over the `L` deep-copied
layers, i.e. a left fold in layer order. -/
def encoderStackFwd {L S H dh F : ℕ} (training : Bool)
    (ps : Fin L → ELParams H dh F) (mks : Fin L → ELMasks H dh F S)
    (x : Fin S → Fin (H * dh) → ℚ) : Fin S → Fin (H * dh) → ℚ :=
  (List.finRange L).foldl (fun acc l => encoderLayerFwd training (ps l) (mks l) acc) x

/-! ### Classification head and the full model -/

/-- Parameters of the `MLPHead` module of the program: a layer normalization followed
by one `nn.Linear(embed_dim, num_classes)`. -/
structure HeadParams (D K : ℕ) where
  norm : LNParams D
  w : Fin K → Fin D → ℚ
  b : Fin K → ℚ

/-- Forward of `MLPHead` on one feature vector. -/
def mlpHead {D K : ℕ} (P : HeadParams D K) (x : Fin D → ℚ) : Fin K → ℚ :=
  linearMap P.w P.b (layerNorm1 P.norm x)

/-- Semantics of `torch.cat((cls_expanded, patches), dim=1)` on one batch
element: row `0` comes from the single-row class-token tensor, row `i ≥ 1`
is patch row `i - 1`. -/
def catCls {N D : ℕ} (cls : Fin D → ℚ) (t : Fin N → Fin D → ℚ) :
    Fin (N + 1) → Fin D → ℚ :=
  fun i => if h : (i : ℕ) < 1 then cls else t ⟨(i : ℕ) - 1, by omega⟩

/-- Parameters of the `ViT` module of the program.  `cls` is
`prepend_embed_token` (shape `[1, 1, D]`), `pos` is
`position_embed_token` (shape `[1, num_patches + 1, D]`). -/
structure VitParams (C p Hp Wp H dh F L K : ℕ) where
  conv : ConvParams C p (H * dh)
  cls : Fin (H * dh) → ℚ
  pos : Fin (Hp * Wp + 1) → Fin (H * dh) → ℚ
  dropRate : ℚ
  layers : Fin L → ELParams H dh F
  head : HeadParams (H * dh) K

/-- Dropout masks one full forward call draws, per batch element: for the
embedding dropout and for each encoder layer. -/
structure VitMasks (B Hp Wp H dh F L : ℕ) where
  embed : Fin B → Fin (Hp * Wp + 1) → Fin (H * dh) → Bool
  enc : Fin B → Fin L → ELMasks H dh F (Hp * Wp + 1)

/-- Forward of `ViT`: patch embedding, class-token prepend (the token is
expanded to the batch size), position-embedding addition, embedding
dropout, the encoder stack, selection of sequence position 0, and the
classification head. -/
def vitForward {B C p Hp Wp H dh F L K : ℕ} (P : VitParams C p Hp Wp H dh F L K)
    (training : Bool) (R : VitMasks B Hp Wp H dh F L)
    (x : Fin B → Fin C → Fin (Hp * p) → Fin (Wp * p) → ℚ) :
    Fin B → Fin K → ℚ :=
  fun b =>
    let patches := patchEmbedding P.conv (x b)
    let s0 := catCls P.cls patches
    let s1 := fun i d => s0 i d + P.pos i d
    let s2 := dropoutSeq training P.dropRate (R.embed b) s1
    let s3 := encoderStackFwd training P.layers (R.enc b) s2
    mlpHead P.head (s3 ⟨0, Nat.succ_pos _⟩)

/-! ### Construction (`ViT.__init__` and its submodule constructors)

The only validity check anywhere on the construction path is the
assertion inside `nn.MultiheadAttention.__init__`:
`head_dim = embed_dim // num_heads` and
`assert head_dim * num_heads == embed_dim`.  No constructor inspects
whether the image size is divisible by the patch size; the position
embedding is simply sized from `num_patches = (image_size // patch_size) ** 2`
with flooring division. -/

/-- Configuration surface of the program (the module-level constants). -/
structure ModelCfg where
  imageSize : ℕ
  patchSize : ℕ
  embedDim : ℕ
  numHeads : ℕ
  numLayers : ℕ
  mlpSize : ℕ
  numClasses : ℕ
deriving DecidableEq

/-- The one construction-time failure the program can hit: the
`AssertionError` of `nn.MultiheadAttention.__init__` when `embed_dim` is
not divisible by `num_heads`. -/
inductive ConstructionError where
  | headDivisibility
deriving DecidableEq

/-- Shape facts about a successfully constructed model: the number of
patch tokens and the number of position-embedding rows. -/
structure VitSkeleton where
  numPatches : ℕ
  posRows : ℕ
deriving DecidableEq

/-- Construction of `nn.MultiheadAttention`, with the literal assertion
`(embed_dim // num_heads) * num_heads == embed_dim`. -/
def multiheadAttentionInit (embedDim numHeads : ℕ) :
    Except ConstructionError Unit :=
  if embedDim / numHeads * numHeads = embedDim then Except.ok ()
  else Except.error ConstructionError.headDivisibility

/-- Construction of `nn.TransformerEncoderLayer`: building its
`self_attn` submodule is the only step that can fail. -/
def transformerEncoderLayerInit (embedDim numHeads : ℕ) :
    Except ConstructionError Unit :=
  multiheadAttentionInit embedDim numHeads

/-- Construction of `ViT`: `PatchEmbedding` (a `Conv2d` and a `Flatten`,
no checks), the class and position embedding parameters sized by flooring
division, the dropout module, the transformer encoder (which constructs
the encoder layer), and `MLPHead` (no checks). -/
def vitInit (cfg : ModelCfg) : Except ConstructionError VitSkeleton := do
  let np := (cfg.imageSize / cfg.patchSize) ^ 2
  let _ ← transformerEncoderLayerInit cfg.embedDim cfg.numHeads
  pure ⟨np, np + 1⟩

/-! ### Evaluation loop (the testing loop of `main`)

`_, predicted = torch.max(outputs.data, 1)` reduces each logit row with a
running maximum; per the documented semantics of `torch.max` along a
dimension, ties return the index of the first maximal value, which the
running-maximum fold realizes by replacing the best value only on a
strict increase.  `total += labels.size(0)`,
`correct += (predicted == labels).sum().item()`, and at the end the loop
computes `100 * correct / total` — a true division that raises
`ZeroDivisionError` when `total == 0`.  Each evaluation example is
modelled by its logit row (the model output for that example, `List ℚ`)
and its integer label. -/

/-- One step of the running-maximum reduction: state is
`(best value, best index, index of the incoming element)`. -/
def maxStep (acc : ℚ × ℕ × ℕ) (v : ℚ) : ℚ × ℕ × ℕ :=
  if acc.1 < v then (v, acc.2.2, acc.2.2 + 1) else (acc.1, acc.2.1, acc.2.2 + 1)

/-- Semantics of `torch.max(row, dim)` on one logit row: maximal value and the index
of its first occurrence.  The empty row is junk (`torch.max` rejects an
empty reduction dimension). -/
def torchMaxRow : List ℚ → ℚ × ℕ
  | [] => (0, 0)
  | v :: rest =>
    let r := rest.foldl maxStep (v, 0, 1)
    (r.1, r.2.1)

/-- The predicted class of one example: the index component of
`torch.max(outputs.data, 1)`. -/
def predictedIdx (l : List ℚ) : ℕ := (torchMaxRow l).2

/-- Whether one example contributes to `correct`:
`predicted == label`. -/
def countsCorrect (l : List ℚ) (lab : ℕ) : Bool := predictedIdx l == lab

/-- One iteration of the testing loop on a batch of (logits, label)
examples, updating the `(correct, total)` accumulators. -/
def evalStep (acc : ℕ × ℕ) (batch : List (List ℚ × ℕ)) : ℕ × ℕ :=
  (acc.1 + batch.countP (fun ex => countsCorrect ex.1 ex.2), acc.2 + batch.length)

/-- The `(correct, total)` accumulators after iterating the evaluation
data source once, both starting at `0`. -/
def evalCounts (batches : List (List (List ℚ × ℕ))) : ℕ × ℕ :=
  batches.foldl evalStep (0, 0)

/-- Result of the testing loop: the reported accuracy, or the
`ZeroDivisionError` that `100 * correct / total` raises when `total` is
zero. -/
inductive EvalOutcome where
  | ok (acc : ℚ)
  | zeroDivisionError
deriving DecidableEq

/-- The full testing loop of `main`: accumulate counts over the data
source, then compute `100 * correct / total`. -/
def evalRun (batches : List (List (List ℚ × ℕ))) : EvalOutcome :=
  let ct := evalCounts batches
  if ct.2 = 0 then EvalOutcome.zeroDivisionError
  else EvalOutcome.ok (100 * (ct.1 : ℚ) / (ct.2 : ℚ))

/-! ### Training loop of `main`

The loop body is: `zero_grad`, forward, loss, `backward`, `step`,
accumulate `running_loss`, and every 50 batches print and reset
`running_loss`.  The parameter/optimizer state and the loss computation
are abstracted as functions `stepF` (one `zero_grad`/forward/`backward`/
`step` cycle) and `lossF`; the scalar loss lives in `Fl`, a float model
that distinguishes finite values from `nan`/`inf`, so that the
(non-)reaction of the loop to non-finite losses is expressible.  The loop has no
conditional other than the 50-batch reporting reset, which only touches
`running_loss`. -/

/-- Scalar float model: finite rational, NaN, or signed infinity. -/
inductive Fl where
  | fin (q : ℚ)
  | nan
  | inf
  | ninf
deriving DecidableEq

/-- Float addition on `Fl` (`running_loss += loss.item()`): NaN
propagates, opposite infinities give NaN. -/
def Fl.add : Fl → Fl → Fl
  | Fl.fin a, Fl.fin b => Fl.fin (a + b)
  | Fl.nan, _ => Fl.nan
  | _, Fl.nan => Fl.nan
  | Fl.inf, Fl.ninf => Fl.nan
  | Fl.ninf, Fl.inf => Fl.nan
  | Fl.inf, _ => Fl.inf
  | _, Fl.inf => Fl.inf
  | Fl.ninf, _ => Fl.ninf
  | _, Fl.ninf => Fl.ninf

/-- State threaded through the training loop: the parameters/optimizer
state `θ`, the count of optimizer steps performed, the running loss, and
the enumerate index within the current epoch. -/
structure TrainState (Θ : Type) where
  θ : Θ
  stepsDone : ℕ
  running : Fl
  idx : ℕ

/-- One iteration of the inner batch loop: compute the loss, perform one
optimizer step, accumulate the running loss (reset every 50 batches by
the reporting branch).  No branch inspects the loss value. -/
def trainBatch {Θ β : Type} (stepF : Θ → β → Θ) (lossF : Θ → β → Fl)
    (s : TrainState Θ) (b : β) : TrainState Θ :=
  let loss := lossF s.θ b
  { θ := stepF s.θ b
    stepsDone := s.stepsDone + 1
    running := if (s.idx + 1) % 50 = 0 then Fl.fin 0 else Fl.add s.running loss
    idx := s.idx + 1 }

/-- One epoch: `running_loss = 0.0`, then the batch loop over the
training data source. -/
def trainEpoch {Θ β : Type} (stepF : Θ → β → Θ) (lossF : Θ → β → Fl)
    (batches : List β) (s : TrainState Θ) : TrainState Θ :=
  batches.foldl (trainBatch stepF lossF) { s with running := Fl.fin 0, idx := 0 }

/-- The full training loop: `for epoch in range(num_epochs)` around the
batch loop. -/
def trainRun {Θ β : Type} (stepF : Θ → β → Θ) (lossF : Θ → β → Fl)
    (epochs : ℕ) (batches : List β) (θ0 : Θ) : TrainState Θ :=
  (List.range epochs).foldl (fun s _ => trainEpoch stepF lossF batches s)
    ⟨θ0, 0, Fl.fin 0, 0⟩

/-! ### Specification-side definitions

Each definition below transcribes the wording of the specification (not
the program) for a refinement claim; the theorems compare them with the
program-side definitions above. -/

/-- Token index of the patch in patch-grid row `r`, column `s`, under the
row-major ordering the specification describes. -/
def tokenIdx {Hp Wp : ℕ} (r : Fin Hp) (s : Fin Wp) : Fin (Hp * Wp) :=
  ⟨(r : ℕ) * Wp + s, patchIndexBound r s⟩

/-- The non-overlapping `p × p × C` block of the image at patch-grid
position `(r, s)`, per the specification of `PatchEmbedding`. -/
def patchBlock {C p Hp Wp : ℕ} (img : Fin C → Fin (Hp * p) → Fin (Wp * p) → ℚ)
    (r : Fin Hp) (s : Fin Wp) : Fin C → Fin p → Fin p → ℚ :=
  fun c a e =>
    img c ⟨(r : ℕ) * p + a, patchIndexBound r a⟩ ⟨(s : ℕ) * p + e, patchIndexBound s e⟩

/-- Transcription of the specification wording "single learned linear projection applied
independently to each non-overlapping patch block": an inner product of
the flattened block with the learned weights, plus a bias. -/
def blockProjection {C p D Hp Wp : ℕ} (P : ConvParams C p D)
    (img : Fin C → Fin (Hp * p) → Fin (Wp * p) → ℚ) (r : Fin Hp) (s : Fin Wp)
    (d : Fin D) : ℚ :=
  (∑ c, ∑ a, ∑ e, P.w d c a e * patchBlock img r s c a e) + P.b d

/-- Composition contract of the specification for `VisionTransformer`,
written as the explicit chaining of its seven numbered stages: patch
embedding, class-token prepend (`Fin.cons` realizes "prepend ... giving
`[B, N+1, D]`"), element-wise position-embedding addition, dropout, the
encoder stack, selection of sequence position 0, and the classification
head. -/
def specVitForward {B C p Hp Wp H dh F L K : ℕ}
    (P : VitParams C p Hp Wp H dh F L K) (training : Bool)
    (R : VitMasks B Hp Wp H dh F L)
    (x : Fin B → Fin C → Fin (Hp * p) → Fin (Wp * p) → ℚ) :
    Fin B → Fin K → ℚ :=
  fun b =>
    mlpHead P.head
      (encoderStackFwd training P.layers (R.enc b)
        (dropoutSeq training P.dropRate (R.embed b)
          (fun i d =>
            @Fin.cons (Hp * Wp) (fun _ => Fin (H * dh) → ℚ) P.cls
              (patchEmbedding P.conv (x b)) i d + P.pos i d))
        0)

/-- Pre-normalization residual block of the specification, transcribed
from its two displayed equations: `x = x + Attention(LayerNorm(x))` then
`x = x + FeedForward(LayerNorm(x))`, where `FeedForward` is the two-layer
projection `D → mlp_size → D` with the GELU-standing activation and the
shared dropout rate applied after each sub-block. -/
def specPreNormLayer {S H dh F : ℕ} (training : Bool) (P : ELParams H dh F)
    (mk : ELMasks H dh F S) (x : Fin S → Fin (H * dh) → ℚ) :
    Fin S → Fin (H * dh) → ℚ :=
  let y := fun i d => x i d +
    dropoutSeq training P.rate mk.m1
      (mhaDropped P.attn training P.rate mk.attnW (layerNormSeq P.norm1 x)) i d
  fun i d => y i d +
    dropoutSeq training P.rate mk.m2
      (fun i2 => linearMap P.w2 P.b2
        (dropoutSeq training P.rate mk.mi
          (fun i3 f => P.act (linearMap P.w1 P.b1 (layerNormSeq P.norm2 y i3) f))
          i2)) i d

/-- Encoder stack of the specification: `L` layers applied in sequence,
layer `0` first, each consuming its own parameter record and dropout
draw — written by structural recursion on the depth. -/
def specEncoderStack {S H dh F : ℕ} (training : Bool) :
    (L : ℕ) → (Fin L → ELParams H dh F) → (Fin L → ELMasks H dh F S) →
    (Fin S → Fin (H * dh) → ℚ) → Fin S → Fin (H * dh) → ℚ
  | 0, _, _, x => x
  | L + 1, ps, mks, x =>
    specEncoderStack training L (fun l => ps l.succ) (fun l => mks l.succ)
      (specPreNormLayer training (ps 0) (mks 0) x)

/-- Permutation of the sequence axis of a `[S, D]` tensor. -/
def permSeq {S D : ℕ} (π : Equiv.Perm (Fin S)) (x : Fin S → Fin D → ℚ) :
    Fin S → Fin D → ℚ :=
  fun i => x (π i)

/-- Index `j` is the first position at which a logit row attains its
maximum: it is in range, no entry exceeds it, and every earlier entry is
strictly smaller. -/
def isLeastArgmax (l : List ℚ) (j : ℕ) : Prop :=
  j < l.length ∧ (∀ k, k < l.length → l.getD k 0 ≤ l.getD j 0) ∧
    (∀ k, k < j → l.getD k 0 < l.getD j 0)

instance (l : List ℚ) (j : ℕ) : Decidable (isLeastArgmax l j) := by
  unfold isLeastArgmax; infer_instance

/-! ### Concrete instances used to separate training-mode forwards

A minimal configuration (one channel, one `1×1` patch, one head of
dimension two, no encoder layers, two classes) in which two training-mode
forward calls that draw different dropout masks produce different
logits. -/

/-- Concrete model parameters for the training-mode separation. -/
def sepParams : VitParams 1 1 1 1 1 2 1 0 2 where
  conv := { w := fun _ _ _ _ => 0, b := fun _ => 0 }
  cls := fun d => if d = 0 then 1 else 0
  pos := fun _ _ => 0
  dropRate := 1 / 10
  layers := fun l => l.elim0
  head :=
    { norm := { gamma := fun _ => 1, beta := fun _ => 0, rsqrt := fun _ => 1 }
      w := fun k d => if k = 0 ∧ d = 0 then 1 else 0
      b := fun _ => 0 }

/-- A dropout draw that keeps every element. -/
def sepKeepAll : VitMasks 1 1 1 1 2 1 0 where
  embed := fun _ _ _ => true
  enc := fun _ l => l.elim0

/-- A dropout draw that zeroes every element. -/
def sepDropAll : VitMasks 1 1 1 1 2 1 0 where
  embed := fun _ _ _ => false
  enc := fun _ l => l.elim0

/-- The all-zero input image for the separation. -/
def sepImage : Fin 1 → Fin 1 → Fin 1 → Fin 1 → ℚ := fun _ _ _ _ => 0

/-! ### Concrete instances for the training-loop analysis -/

/-- A loss function whose value on the first batch is NaN and finite
afterwards (parameters abstracted to `ℕ`, batches labelled by `ℕ`). -/
def nanOnFirst : ℕ → ℕ → Fl := fun _ b => if b = 0 then Fl.nan else Fl.fin 1

/-- An abstract optimizer step that counts how often it ran. -/
def countingStep : ℕ → ℕ → ℕ := fun θ _ => θ + 1

/-- Worked evaluation example of the specification: one batch of four
examples with labels `[0, 1, 0, 1]` whose logit rows predict
`[0, 1, 1, 1]`. -/
def exampleEvalBatch : List (List (List ℚ × ℕ)) :=
  [[([1, 0], 0), ([0, 1], 1), ([0, 1], 0), ([0, 1], 1)]]

end ViTProgram

namespace ViTProgram

/-! ## Supporting lemmas -/

theorem dropoutSeq_not_training {S D : ℕ} (rate : ℚ) (mask : Fin S → Fin D → Bool)
    (x : Fin S → Fin D → ℚ) : dropoutSeq false rate mask x = x := rfl

theorem evalCounts_eq (batches : List (List (List ℚ × ℕ))) :
    evalCounts batches =
      (batches.flatten.countP (fun ex => countsCorrect ex.1 ex.2),
       batches.flatten.length) := by
  suffices h : ∀ c t, batches.foldl evalStep (c, t) =
      (c + batches.flatten.countP (fun ex => countsCorrect ex.1 ex.2),
       t + batches.flatten.length) by
    simpa [evalCounts] using h 0 0
  induction batches with
  | nil => intro c t; simp
  | cons b bs ih =>
    intro c t
    simp [evalStep, ih, List.countP_append, Nat.add_assoc]

theorem trainFold_stepsDone {Θ β : Type} (stepF : Θ → β → Θ) (lossF : Θ → β → Fl)
    (bs : List β) : ∀ s : TrainState Θ,
    (bs.foldl (trainBatch stepF lossF) s).stepsDone = s.stepsDone + bs.length := by
  induction bs with
  | nil => intro s; simp
  | cons b bs ih =>
    intro s
    simp only [List.foldl_cons, ih, trainBatch, List.length_cons]
    omega

theorem trainEpoch_stepsDone {Θ β : Type} (stepF : Θ → β → Θ) (lossF : Θ → β → Fl)
    (batches : List β) (s : TrainState Θ) :
    (trainEpoch stepF lossF batches s).stepsDone = s.stepsDone + batches.length := by
  unfold trainEpoch
  rw [trainFold_stepsDone]

/-! ## Claim C2 — construction-time configuration checking -/

/-- Claim C2, counterexample: a configuration whose image size (225) is
not divisible by its patch size (16) — with `embed_dim = 768`,
`num_heads = 12` as in the program — does NOT fail at construction; the
model is built successfully (with a floored patch count of `14² = 196`),
contradicting "constructing the model fails with a ConfigurationError at
construction time". -/
theorem vitInit_accepts_indivisible_image :
    ¬ (16 ∣ 225) ∧ vitInit ⟨225, 16, 768, 12, 12, 3072, 2⟩ = Except.ok ⟨196, 197⟩ :=
  ⟨by decide, rfl⟩

/-- Claim C2, amended: construction fails (with the assertion of
`nn.MultiheadAttention.__init__`, the only construction-time check on the
path of `ViT.__init__`) exactly when `embed_dim` is not divisible by
`num_heads`; divisibility of the image dimensions by `patch_size` is
never examined at construction — a violating image size still constructs
successfully, the patch count being floored. -/
theorem vitInit_eq_head_divisibility_check (cfg : ModelCfg) :
    vitInit cfg =
      if cfg.numHeads ∣ cfg.embedDim then
        Except.ok ⟨(cfg.imageSize / cfg.patchSize) ^ 2,
                   (cfg.imageSize / cfg.patchSize) ^ 2 + 1⟩
      else Except.error ConstructionError.headDivisibility := by
  have key : (cfg.embedDim / cfg.numHeads * cfg.numHeads = cfg.embedDim) ↔
      cfg.numHeads ∣ cfg.embedDim := by
    constructor
    · intro h2
      exact ⟨cfg.embedDim / cfg.numHeads, by rw [Nat.mul_comm]; exact h2.symm⟩
    · intro h2
      exact Nat.div_mul_cancel h2
  simp only [vitInit, transformerEncoderLayerInit, multiheadAttentionInit]
  by_cases h : cfg.numHeads ∣ cfg.embedDim
  · rw [if_pos (key.mpr h), if_pos h]
    rfl
  · rw [if_neg (fun hc => h (key.mp hc)), if_neg h]
    rfl

/-! ## Claim C6 — training-loop reaction to non-finite loss -/

/-- Claim C6, counterexample: with a two-batch epoch whose first batch
has loss NaN, the training loop still performs an optimizer step on BOTH
batches (two steps, parameters updated twice) and merely folds the NaN
into the running loss — nothing aborts and no step is skipped,
contradicting "it is surfaced immediately and the run aborts, with no
retry, no skipping of the batch, and no further optimizer steps". -/
theorem trainRun_steps_after_nan_loss :
    nanOnFirst 0 0 = Fl.nan ∧
    (trainRun countingStep nanOnFirst 1 [0, 1] 0).stepsDone = 2 ∧
    (trainRun countingStep nanOnFirst 1 [0, 1] 0).θ = 2 ∧
    (trainRun countingStep nanOnFirst 1 [0, 1] 0).running = Fl.nan :=
  ⟨rfl, rfl, rfl, rfl⟩

/-- Claim C6, amended: the training loop performs no finiteness check on
the loss; whatever values the loss takes (NaN and Inf included), every
batch of every epoch incurs exactly one optimizer step — a non-finite
loss neither aborts the run nor suppresses subsequent optimizer steps. -/
theorem trainRun_one_step_per_batch {Θ β : Type} (stepF : Θ → β → Θ)
    (lossF : Θ → β → Fl) (epochs : ℕ) (batches : List β) (θ0 : Θ) :
    (trainRun stepF lossF epochs batches θ0).stepsDone =
      epochs * batches.length := by
  unfold trainRun
  induction epochs with
  | zero => simp
  | succ n ih =>
    rw [List.range_succ, List.foldl_append]
    simp only [List.foldl_cons, List.foldl_nil, trainEpoch_stepsDone, ih]
    ring

/-! ## Claim C7 — empty evaluation data source -/

/-- Claim C7, counterexample: on an empty evaluation data source the loop
is entered (vacuously), finishes with `total = 0`, and the run reaches
the accuracy computation, which fails there with a `ZeroDivisionError` —
there is no prior detection of data exhaustion, contradicting "this is
detected before the evaluation loop starts, as a DataExhaustionError; the
loop never reaches the accuracy computation with total == 0". -/
theorem evalRun_empty_reaches_division :
    evalCounts [] = (0, 0) ∧ evalRun [] = EvalOutcome.zeroDivisionError :=
  ⟨rfl, rfl⟩

/-- Claim C7, amended: an empty evaluation data source is not detected
before the loop; the run always proceeds to the accuracy computation, and
it fails there with a `ZeroDivisionError` exactly when the data source
contains zero examples. -/
theorem evalRun_zero_division_iff (batches : List (List (List ℚ × ℕ))) :
    evalRun batches = EvalOutcome.zeroDivisionError ↔ batches.flatten = [] := by
  simp only [evalRun, evalCounts_eq]
  by_cases h : batches.flatten.length = 0
  · rw [if_pos h]
    simp [List.length_eq_zero.mp h]
  · rw [if_neg h]
    simp only [List.length_eq_zero] at h
    simp [h]

/-! ## Claim C5 — reported accuracy formula -/

/-- Claim C5: for every evaluation data source with at least one example,
the reported accuracy is exactly `100 * correct / total`, where `correct`
counts the examples whose predicted class (index of the maximum logit)
equals the label and `total` is the number of examples. -/
theorem evalRun_accuracy_formula (batches : List (List (List ℚ × ℕ)))
    (h : batches.flatten ≠ []) :
    evalRun batches = EvalOutcome.ok
      (100 * ((batches.flatten.countP (fun ex => countsCorrect ex.1 ex.2) : ℕ) : ℚ) /
        ((batches.flatten.length : ℕ) : ℚ)) := by
  have hlen : batches.flatten.length ≠ 0 := by
    intro h0
    exact h (List.length_eq_zero.mp h0)
  simp only [evalRun, evalCounts_eq]
  rw [if_neg hlen]

/-- Claim C5, witness: the four-example batch of the specification with labels
`[0,1,0,1]` and predictions `[0,1,1,1]` reports exactly 75 percent. -/
theorem evalRun_accuracy_witness :
    exampleEvalBatch.flatten ≠ [] ∧
      evalRun exampleEvalBatch = EvalOutcome.ok 75 := by
  have hne : exampleEvalBatch.flatten ≠ [] := by simp [exampleEvalBatch]
  refine ⟨hne, ?_⟩
  have h := evalRun_accuracy_formula exampleEvalBatch hne
  have hc : exampleEvalBatch.flatten.countP (fun ex => countsCorrect ex.1 ex.2) = 3 := rfl
  have hl : exampleEvalBatch.flatten.length = 4 := rfl
  rw [h, hc, hl]
  norm_num

/-! ## Claim C10 — tie-breaking of the predicted class -/

theorem maxFold_spec (rest : List ℚ) : ∀ (bv : ℚ) (bi i : ℕ),
    ((rest.foldl maxStep (bv, bi, i)).1 = bv ∧
      (rest.foldl maxStep (bv, bi, i)).2.1 = bi ∧
      ∀ k, k < rest.length → rest.getD k 0 ≤ bv) ∨
    ∃ k, k < rest.length ∧
      (rest.foldl maxStep (bv, bi, i)).2.1 = i + k ∧
      (rest.foldl maxStep (bv, bi, i)).1 = rest.getD k 0 ∧
      bv < (rest.foldl maxStep (bv, bi, i)).1 ∧
      (∀ m, m < k → rest.getD m 0 < (rest.foldl maxStep (bv, bi, i)).1) ∧
      (∀ m, m < rest.length → rest.getD m 0 ≤ (rest.foldl maxStep (bv, bi, i)).1) := by
  induction rest with
  | nil =>
    intro bv bi i
    left
    exact ⟨rfl, rfl, by intro k hk; simp at hk⟩
  | cons u rest ih =>
    intro bv bi i
    rw [List.foldl_cons]
    by_cases hlt : bv < u
    · have hstep : maxStep (bv, bi, i) u = (u, i, i + 1) := by simp [maxStep, hlt]
      rw [hstep]
      rcases ih u i (i + 1) with ⟨h1, h2, h3⟩ | ⟨k, hk, hidx, hval, hbv, hearl, hall⟩
      · right
        refine ⟨0, by simp, by omega, by simp [h1], by rw [h1]; exact hlt, ?_, ?_⟩
        · intro m hm; omega
        · intro m hm
          cases m with
          | zero => simp [h1]
          | succ m2 =>
            simp only [List.getD_cons_succ, h1]
            exact h3 m2 (by simpa using hm)
      · right
        refine ⟨k + 1, by simpa using hk, by omega, by simpa using hval, lt_trans hlt hbv, ?_, ?_⟩
        · intro m hm
          cases m with
          | zero => simpa using hbv
          | succ m2 => simpa using hearl m2 (by omega)
        · intro m hm
          cases m with
          | zero => simpa using le_of_lt hbv
          | succ m2 => simpa using hall m2 (by simpa using hm)
    · have hstep : maxStep (bv, bi, i) u = (bv, bi, i + 1) := by simp [maxStep, hlt]
      rw [hstep]
      rcases ih bv bi (i + 1) with ⟨h1, h2, h3⟩ | ⟨k, hk, hidx, hval, hbv, hearl, hall⟩
      · left
        refine ⟨h1, h2, ?_⟩
        intro m hm
        cases m with
        | zero => simpa using le_of_not_lt hlt
        | succ m2 => simpa using h3 m2 (by simpa using hm)
      · right
        refine ⟨k + 1, by simpa using hk, by omega, by simpa using hval, hbv, ?_, ?_⟩
        · intro m hm
          cases m with
          | zero => simpa using lt_of_le_of_lt (le_of_not_lt hlt) hbv
          | succ m2 => simpa using hearl m2 (by omega)
        · intro m hm
          cases m with
          | zero => simpa using le_of_lt (lt_of_le_of_lt (le_of_not_lt hlt) hbv)
          | succ m2 => simpa using hall m2 (by simpa using hm)

/-- Claim C10: for every non-empty logit row, the predicted class
computed by the running maximum of `torch.max(outputs.data, 1)` is the
FIRST index attaining the maximum — in particular, when the maximum is
attained at several class indices the smallest such index is predicted —
and the evaluation loop counts the example as correct exactly when that
index equals the label. -/
theorem predictedIdx_first_max (l : List ℚ) (lab : ℕ) (h : l ≠ []) :
    isLeastArgmax l (predictedIdx l) ∧
      (countsCorrect l lab = true ↔ predictedIdx l = lab) := by
  refine ⟨?_, by simp [countsCorrect]⟩
  obtain ⟨v, rest, rfl⟩ := List.exists_cons_of_ne_nil h
  show isLeastArgmax (v :: rest) (rest.foldl maxStep (v, 0, 1)).2.1
  rcases maxFold_spec rest v 0 1 with ⟨h1, h2, h3⟩ | ⟨k, hk, hidx, hval, hbv, hearl, hall⟩
  · rw [h2]
    refine ⟨by simp, ?_, by intro k hk; omega⟩
    intro k hk2
    cases k with
    | zero => simp
    | succ k2 =>
      simp only [List.getD_cons_succ, List.getD_cons_zero]
      exact h3 k2 (by simpa using hk2)
  · have hidx2 : (rest.foldl maxStep (v, 0, 1)).2.1 = k + 1 := by omega
    rw [hidx2]
    have hval2 : (v :: rest).getD (k + 1) 0 = (rest.foldl maxStep (v, 0, 1)).1 := by
      simpa using hval.symm
    refine ⟨by simp; omega, ?_, ?_⟩
    · intro m hm
      rw [hval2]
      cases m with
      | zero => simpa using le_of_lt hbv
      | succ m2 => simpa using hall m2 (by simpa using hm)
    · intro m hm
      rw [hval2]
      cases m with
      | zero => simpa using hbv
      | succ m2 => simpa using hearl m2 (by omega)

/-- Claim C10, witness: on the tied row `[2, 5, 5]` the maximum 5 is
attained at indices 1 and 2; the predicted class is the smallest, 1, and
an example with label 1 counts as correct. -/
theorem predictedIdx_first_max_witness :
    isLeastArgmax [2, 5, 5] (predictedIdx [2, 5, 5]) ∧
      (countsCorrect [2, 5, 5] 1 = true ↔ predictedIdx [2, 5, 5] = 1) :=
  predictedIdx_first_max [2, 5, 5] 1 (by simp)

/-! ## Claim C3 — patch embedding output -/

/-- Claim C3: on a batched image whose spatial dimensions are multiples
of the patch size (`H = Hp*p`, `W = Wp*p`), `PatchEmbedding` computes
each batch element independently (so the output has one `[N, D]` slice
per batch element — its sequence length `N = Hp * Wp = (H/p)·(W/p)` and
feature dimension `D = embed_dim` are the index types of the result and
do not depend on the batch size `B`), and the token at patch-grid
position `(r, s)` is exactly the learned linear projection of the
corresponding non-overlapping `p × p × C` image block. -/
theorem patchEmbedding_tokens {B C pz Hp Wp D : ℕ} (P : ConvParams C pz D)
    (x : Fin B → Fin C → Fin (Hp * pz) → Fin (Wp * pz) → ℚ) (b : Fin B)
    (r : Fin Hp) (s : Fin Wp) (d : Fin D) :
    patchEmbeddingBatch P x b = patchEmbedding P (x b) ∧
      patchEmbedding P (x b) (tokenIdx r s) d = blockProjection P (x b) r s d := by
  refine ⟨rfl, ?_⟩
  have hWp : 0 < Wp := s.pos
  have h1 : ((tokenIdx r s : Fin (Hp * Wp)) : ℕ) / Wp = r := by
    show ((r : ℕ) * Wp + s) / Wp = r
    rw [Nat.mul_comm, Nat.mul_add_div hWp, Nat.div_eq_of_lt s.isLt]
    omega
  have h2 : ((tokenIdx r s : Fin (Hp * Wp)) : ℕ) % Wp = s := by
    show ((r : ℕ) * Wp + s) % Wp = s
    rw [Nat.mul_comm, Nat.mul_add_mod, Nat.mod_eq_of_lt s.isLt]
  have hr : (⟨((tokenIdx r s : Fin (Hp * Wp)) : ℕ) / Wp,
      flattenDivBound (tokenIdx r s)⟩ : Fin Hp) = r := Fin.eq_of_val_eq h1
  have hs2 : (⟨((tokenIdx r s : Fin (Hp * Wp)) : ℕ) % Wp,
      flattenModBound (tokenIdx r s)⟩ : Fin Wp) = s := Fin.eq_of_val_eq h2
  show conv2dPatch P (x b) d
      ⟨((tokenIdx r s : Fin (Hp * Wp)) : ℕ) / Wp, flattenDivBound (tokenIdx r s)⟩
      ⟨((tokenIdx r s : Fin (Hp * Wp)) : ℕ) % Wp, flattenModBound (tokenIdx r s)⟩ =
    blockProjection P (x b) r s d
  rw [hr, hs2]
  rfl

/-! ## Claim C1 — the forward-pass composition contract -/

theorem catCls_eq_cons {N D : ℕ} (cls : Fin D → ℚ) (t : Fin N → Fin D → ℚ) :
    catCls cls t = @Fin.cons N (fun _ => Fin D → ℚ) cls t := by
  funext i
  refine Fin.cases ?_ ?_ i
  · simp [catCls]
  · intro j
    simp [catCls]

/-- Claim C1: on a `[B, 3, H, W]` batch matching the patch grid of the model,
`ViT.forward` coincides, batch element by batch element, with the
seven-stage composition of the specification — patch embedding to `[B, N, D]`,
prepending the class token (broadcast across the batch: every batch
element receives the same learned token as row 0) to `[B, N+1, D]`,
element-wise position-embedding addition, dropout, the encoder stack,
selection of sequence position 0, and the classification head — and
types force the result to be one `num_classes`-vector of logits per
batch element. -/
theorem vitForward_pipeline {B C pz Hp Wp H dh F L K : ℕ}
    (P : VitParams C pz Hp Wp H dh F L K) (training : Bool)
    (R : VitMasks B Hp Wp H dh F L)
    (x : Fin B → Fin C → Fin (Hp * pz) → Fin (Wp * pz) → ℚ) :
    vitForward P training R x = specVitForward P training R x := by
  funext b
  simp only [vitForward, specVitForward, catCls_eq_cons, Fin.mk_zero]

/-! ## Claim C4 — pre-normalization residual layers and the stack -/

theorem encoderLayerFwd_eq_spec {S H dh F : ℕ} (training : Bool)
    (P : ELParams H dh F) (mk : ELMasks H dh F S) (x : Fin S → Fin (H * dh) → ℚ) :
    encoderLayerFwd training P mk x = specPreNormLayer training P mk x := rfl

theorem encoderStackFwd_eq_spec {S H dh F : ℕ} (training : Bool) :
    ∀ (L : ℕ) (ps : Fin L → ELParams H dh F) (mks : Fin L → ELMasks H dh F S)
      (x : Fin S → Fin (H * dh) → ℚ),
      encoderStackFwd training ps mks x = specEncoderStack training L ps mks x := by
  intro L
  induction L with
  | zero =>
    intro ps mks x
    simp [encoderStackFwd, specEncoderStack]
  | succ n ih =>
    intro ps mks x
    have hfold : encoderStackFwd training ps mks x =
        encoderStackFwd training (fun l => ps l.succ) (fun l => mks l.succ)
          (encoderLayerFwd training (ps 0) (mks 0) x) := by
      simp only [encoderStackFwd, List.finRange_succ, List.foldl_cons, List.foldl_map]
    rw [hfold, ih, encoderLayerFwd_eq_spec]
    rfl

/-- Claim C4: each encoder layer of the program computes exactly the
pre-normalization residual ordering of the specification —
`x = x + Attention(LayerNorm(x))` then `x = x + FeedForward(LayerNorm(x))`
with `FeedForward` the two-layer `D → mlp_size → D` projection through the
GELU-standing activation (and dropout after each sub-block) — and the
encoder stack applies exactly `L` such layers in sequence, layer `l`
consuming its own parameter record `ps l` (the parameter families are
arbitrary per-layer records, so nothing is shared across layers, matching
the deep copies `nn.TransformerEncoder` makes). -/
theorem encoder_pre_norm_stack {S H dh F : ℕ} (training : Bool) (L : ℕ)
    (ps : Fin L → ELParams H dh F) (mks : Fin L → ELMasks H dh F S)
    (x : Fin S → Fin (H * dh) → ℚ) (P1 : ELParams H dh F)
    (mk1 : ELMasks H dh F S) (y : Fin S → Fin (H * dh) → ℚ) :
    encoderLayerFwd training P1 mk1 y = specPreNormLayer training P1 mk1 y ∧
      encoderStackFwd training ps mks x = specEncoderStack training L ps mks x :=
  ⟨encoderLayerFwd_eq_spec training P1 mk1 y,
   encoderStackFwd_eq_spec training L ps mks x⟩

/-! ## Claim C9 — permutation equivariance of `MultiheadSelfAttention` -/

theorem headScores_perm {S H dh : ℕ} (P : MHAParams H dh)
    (π : Equiv.Perm (Fin S)) (y : Fin S → Fin (H * dh) → ℚ) (h : Fin H)
    (i j : Fin S) :
    headScores P (permSeq π y) h i j = headScores P y h (π i) (π j) := rfl

theorem attnWeights_perm {S H dh : ℕ} (P : MHAParams H dh)
    (π : Equiv.Perm (Fin S)) (y : Fin S → Fin (H * dh) → ℚ) (h : Fin H)
    (i j : Fin S) :
    attnWeights P (permSeq π y) h i j = attnWeights P y h (π i) (π j) := by
  unfold attnWeights softmaxRow
  rw [headScores_perm]
  congr 1
  calc ∑ j2, P.e (headScores P (permSeq π y) h i j2)
      = ∑ j2, P.e (headScores P y h (π i) (π j2)) := rfl
    _ = ∑ j2, P.e (headScores P y h (π i) j2) :=
        Equiv.sum_comp π (fun j2 => P.e (headScores P y h (π i) j2))

theorem mhaCore_perm {S H dh : ℕ} (P : MHAParams H dh) (π : Equiv.Perm (Fin S))
    (y : Fin S → Fin (H * dh) → ℚ) :
    mhaCore P (permSeq π y) = permSeq π (mhaCore P y) := by
  funext i d
  show linearMap P.wo P.bo _ d = linearMap P.wo P.bo _ d
  unfold linearMap
  congr 1
  apply Finset.sum_congr rfl
  intro dd _
  congr 1
  calc ∑ j, attnWeights P (permSeq π y) ⟨(dd : ℕ) / dh, flattenDivBound dd⟩ i j *
        linearMap P.wv P.bv (permSeq π y j)
          (featIdx ⟨(dd : ℕ) / dh, flattenDivBound dd⟩ ⟨(dd : ℕ) % dh, flattenModBound dd⟩)
      = ∑ j, attnWeights P y ⟨(dd : ℕ) / dh, flattenDivBound dd⟩ (π i) (π j) *
        linearMap P.wv P.bv (y (π j))
          (featIdx ⟨(dd : ℕ) / dh, flattenDivBound dd⟩ ⟨(dd : ℕ) % dh, flattenModBound dd⟩) := by
        apply Finset.sum_congr rfl
        intro j _
        rw [attnWeights_perm]
        rfl
    _ = ∑ j, attnWeights P y ⟨(dd : ℕ) / dh, flattenDivBound dd⟩ (π i) j *
        linearMap P.wv P.bv (y j)
          (featIdx ⟨(dd : ℕ) / dh, flattenDivBound dd⟩ ⟨(dd : ℕ) % dh, flattenModBound dd⟩) :=
        Equiv.sum_comp π (fun j =>
          attnWeights P y ⟨(dd : ℕ) / dh, flattenDivBound dd⟩ (π i) j *
            linearMap P.wv P.bv (y j)
              (featIdx ⟨(dd : ℕ) / dh, flattenDivBound dd⟩ ⟨(dd : ℕ) % dh, flattenModBound dd⟩))

/-- Claim C9: the `MultiheadSelfAttention` block of the program (layer
normalization followed by multi-head self-attention with `q = k = v`) is
permutation-equivariant over the sequence axis: applying it to a sequence
permuted by any `π` equals permuting its output by `π` — the block itself
carries no notion of token order. -/
theorem msaBlock_perm_equivariant {S H dh : ℕ} (ln : LNParams (H * dh))
    (P : MHAParams H dh) (x : Fin S → Fin (H * dh) → ℚ)
    (π : Equiv.Perm (Fin S)) :
    msaBlock ln P (permSeq π x) = permSeq π (msaBlock ln P x) := by
  unfold msaBlock
  rw [show layerNormSeq ln (permSeq π x) = permSeq π (layerNormSeq ln x) from rfl,
    mhaCore_perm]

/-! ## Claim C8 — determinism in evaluation mode, stochasticity in training -/

theorem dropoutAttnW_not_training {S H : ℕ} (rate : ℚ)
    (mask : Fin H → Fin S → Fin S → Bool) (wts : Fin H → Fin S → Fin S → ℚ) :
    dropoutAttnW false rate mask wts = wts := rfl

theorem mhaDropped_not_training {S H dh : ℕ} (P : MHAParams H dh) (rate : ℚ)
    (mask : Fin H → Fin S → Fin S → Bool) (x : Fin S → Fin (H * dh) → ℚ) :
    mhaDropped P false rate mask x = mhaCore P x := by
  unfold mhaDropped mhaCore
  rw [dropoutAttnW_not_training]

theorem encoderLayerFwd_eval_masks {S H dh F : ℕ} (P : ELParams H dh F)
    (mk mk' : ELMasks H dh F S) (x : Fin S → Fin (H * dh) → ℚ) :
    encoderLayerFwd false P mk x = encoderLayerFwd false P mk' x := by
  simp only [encoderLayerFwd, saBlock, ffBlock, dropoutSeq_not_training,
    mhaDropped_not_training]

theorem encoderStackFwd_eval_masks {L S H dh F : ℕ}
    (ps : Fin L → ELParams H dh F) (mks mks' : Fin L → ELMasks H dh F S)
    (x : Fin S → Fin (H * dh) → ℚ) :
    encoderStackFwd false ps mks x = encoderStackFwd false ps mks' x := by
  unfold encoderStackFwd
  apply List.foldl_ext
  intro acc l _
  exact encoderLayerFwd_eval_masks (ps l) (mks l) (mks' l) acc

/-- Claim C8: with the model in evaluation (non-training) mode, the
forward pass does not depend on the dropout draw at all — any two calls
on the same input with the same parameters produce identical logits,
whatever randomness they sample; and in training mode two forward calls
on the same input and parameters can differ: on the concrete instance
`sepParams`/`sepImage`, the draw that keeps every element and the draw
that zeroes every element yield different logits. -/
theorem vitForward_eval_deterministic :
    (∀ (B C pz Hp Wp H dh F L K : ℕ) (P : VitParams C pz Hp Wp H dh F L K)
       (R R' : VitMasks B Hp Wp H dh F L)
       (x : Fin B → Fin C → Fin (Hp * pz) → Fin (Wp * pz) → ℚ),
        vitForward P false R x = vitForward P false R' x) ∧
      vitForward sepParams true sepKeepAll sepImage 0 0 ≠
        vitForward sepParams true sepDropAll sepImage 0 0 := by
  constructor
  · intro B C pz Hp Wp H dh F L K P R R' x
    funext b
    simp only [vitForward, dropoutSeq_not_training]
    rw [encoderStackFwd_eval_masks P.layers (R.enc b) (R'.enc b)]
  · have h1 : vitForward sepParams true sepKeepAll sepImage 0 0 = 5 / 9 := by
      simp [vitForward, sepParams, sepKeepAll, sepImage, patchEmbedding, flatten23,
        conv2dPatch, catCls, dropoutSeq, encoderStackFwd, List.finRange_zero, mlpHead,
        linearMap, layerNorm1, featMean, featVar, lnEps, Fin.sum_univ_succ]
      norm_num
    have h2 : vitForward sepParams true sepDropAll sepImage 0 0 = 0 := by
      simp [vitForward, sepParams, sepDropAll, sepImage, patchEmbedding, flatten23,
        conv2dPatch, catCls, dropoutSeq, encoderStackFwd, List.finRange_zero, mlpHead,
        linearMap, layerNorm1, featMean, featVar, lnEps, Fin.sum_univ_succ]
    rw [h1, h2]
    norm_num

end ViTProgram
